import Mathlib

/-!
Shallow embedding of `src/TP1/ej_2.py`: a multinomial Naive Bayes text
classifier with additive (Laplace) smoothing, a stratified train/test
splitter, and confusion-matrix metric derivation.

Modelling conventions:
* Python dictionaries are association lists (`List (String × _)`) kept in
  insertion order, exactly as CPython dicts iterate; lookups take the first
  matching key, updates rewrite the first matching entry in place, fresh
  keys are appended at the end.
* Python floats are modelled as exact rationals (`ℚ`).
* Python exceptions that the claims touch (`ZeroDivisionError` from `/`,
  `KeyError` from `d[k]`) are modelled with `Except String`.
* `pandas.Series` arguments (`X`, `y`) are plain Lean lists; `X.iloc[i]` /
  `y.iloc[i]` pairing over `range(len(X))` is modelled with `List.zip`,
  which agrees with the source whenever the two series are aligned
  (`len(X) == len(y)`), the only situation the program exercises.
-/

/-- First-match lookup in an association list: Python `d.get(k)` / `d[k]`. -/
def alookup {α : Type} : List (String × α) → String → Option α
  | [], _ => none
  | p :: rest, k => if p.1 = k then some p.2 else alookup rest k

/-- Python `d[k] = d.get(k, 0) + n` on a dict: the first entry with key `k`
is updated in place; a missing key is appended at the end (insertion order). -/
def dictBump : List (String × Nat) → String → Nat → List (String × Nat)
  | [], k, n => [(k, n)]
  | p :: rest, k, n =>
    if p.1 = k then (p.1, p.2 + n) :: rest else p :: dictBump rest k n

/-- Rewrite the value stored under key `k` (first matching entry) with `f`. -/
def updateEntry {α : Type} : List (String × α) → String → (α → α) → List (String × α)
  | [], _, _ => []
  | p :: rest, k, f =>
    if p.1 = k then (p.1, f p.2) :: rest else p :: updateEntry rest k f

/-- Python `set.add` on a set represented as a duplicate-free list in
first-seen order (only the cardinality of `vocab` matters to the model). -/
def setInsert (s : List String) (w : String) : List String :=
  if w ∈ s then s else s ++ [w]

/-- Python `str.split()` with no argument: split on runs of whitespace and
discard empty chunks (so leading/trailing whitespace yields nothing). -/
def pySplitAux : List Char → List Char → List String
  | [], [] => []
  | [], acc => [String.mk acc.reverse]
  | c :: cs, acc =>
    if c.isWhitespace then
      match acc with
      | [] => pySplitAux cs []
      | _ => String.mk acc.reverse :: pySplitAux cs []
    else pySplitAux cs (c :: acc)

/-- `text.split()` from `Tokenizer.apply`. -/
def pySplit (text : String) : List String :=
  pySplitAux text.data []

/-- `class Tokenizer`: a pluggable accept-predicate and per-token transform. -/
structure Tokenizer where
  filter : String → Bool
  sanitizer : String → String

/-- `Tokenizer.apply`: `[self.sanitizer(w) for w in text.split() if self.filter(w)]`. -/
def Tokenizer.apply (t : Tokenizer) (text : String) : List String :=
  ((pySplit text).filter (fun w => t.filter w)).map t.sanitizer

/-- `class NaiveBayesClassifier` state.  The Python constructor also sets a
field `word_counts = {}` that no method ever reads or writes again; being
dead state, it is not carried here. -/
structure NaiveBayesClassifier where
  tokenizer : Tokenizer
  vocab : List String
  class_word_counts : List (String × List (String × Nat))
  class_priors : List (String × ℚ)

/-- `NaiveBayesClassifier.__init__`. -/
def NaiveBayesClassifier.init (tok : Tokenizer) : NaiveBayesClassifier :=
  ⟨tok, [], [], []⟩

/-- The running total a category stores under its reserved `'__total__'` key. -/
def totalOfEntry (d : List (String × Nat)) : Nat :=
  (alookup d "__total__").getD 0

/-- The count updates `fit` performs on one label's table for one document:
`cwc[label]['__total__'] += len(words)`, then for each word
`cwc[label][word] = cwc[label].get(word, 0) + 1` (words are bumped into the
same dict that holds the reserved `'__total__'` key, exactly as in Python). -/
def fitWords (words : List String) (d : List (String × Nat)) : List (String × Nat) :=
  words.foldl (fun d w => dictBump d w 1) (dictBump d "__total__" words.length)

/-- Body of the `for i in range(len(X))` loop of `fit`, for one document:
update `vocab`, create the label's table on first sight (with
`'__total__' = 0`), add `len(words)` to `'__total__'`, then bump each word. -/
def fitDoc (tok : Tokenizer) (acc : List String × List (String × List (String × Nat)))
    (doc : String × String) : List String × List (String × List (String × Nat)) :=
  let words := tok.apply doc.1
  let vocab := words.foldl setInsert acc.1
  let cwc :=
    if (alookup acc.2 doc.2).isSome then acc.2
    else acc.2 ++ [(doc.2, [("__total__", 0)])]
  let cwc := updateEntry cwc doc.2 (fitWords words)
  (vocab, cwc)

/-- The prior dict comprehension
`{label: count['__total__'] / total_documents for label, count in self.class_word_counts.items()}`:
each executed division raises `ZeroDivisionError` when `total_documents == 0`,
but no division executes at all when the table is empty. -/
def priorsOf : List (String × List (String × Nat)) → Nat → Except String (List (String × ℚ))
  | [], _ => .ok []
  | p :: rest, n =>
    if n = 0 then .error "ZeroDivisionError"
    else
      match priorsOf rest n with
      | .error e => .error e
      | .ok l => .ok ((p.1, (totalOfEntry p.2 : ℚ) / (n : ℚ)) :: l)

/-- `NaiveBayesClassifier.fit(X, y)`: fold the per-document loop, then
replace `class_priors` with the token-total / document-count ratios. -/
def NaiveBayesClassifier.fit (m : NaiveBayesClassifier) (X y : List String) :
    Except String NaiveBayesClassifier :=
  let acc := (X.zip y).foldl (fitDoc m.tokenizer) (m.vocab, m.class_word_counts)
  let total_documents := y.length
  match priorsOf acc.2 total_documents with
  | .error e => .error e
  | .ok priors =>
    .ok { m with vocab := acc.1, class_word_counts := acc.2, class_priors := priors }

/-- The inner word loop of `_calculate_posteriors` for one label's table
`d` and vocabulary size `V`: each step performs the float division
`(word_count + 1) / (total_words + len(vocab))`, which raises
`ZeroDivisionError` when the denominator is zero — reachable in a trained
model whose every document tokenized to nothing (empty vocabulary, zero
totals), scored on a text with at least one token. -/
def likelihoodLoop (d : List (String × Nat)) (V : Nat) :
    List String → ℚ → Except String ℚ
  | [], likelihood => .ok likelihood
  | word :: rest, likelihood =>
    let word_count : ℚ := ((alookup d word).getD 0 : Nat)
    let total_words : ℚ := ((alookup d "__total__").getD 0 : Nat)
    if total_words + (V : ℚ) = 0 then .error "ZeroDivisionError"
    else
      likelihoodLoop d V rest (likelihood * ((word_count + 1) / (total_words + (V : ℚ))))

/-- The label loop of `_calculate_posteriors`: for every label of
`class_priors` in insertion order, compute the smoothed word likelihood
(propagating its `ZeroDivisionError`, so an error at an early label
preempts later labels exactly as in Python) and record
`prior * likelihood`.  The lookup `class_word_counts[label]` cannot miss on
any model `fit` produces, so its default is an unreachable junk value. -/
def posteriorsLoop (m : NaiveBayesClassifier) (words : List String) :
    List (String × ℚ) → Except String (List (String × ℚ))
  | [] => .ok []
  | cp :: rest =>
    let d := (alookup m.class_word_counts cp.1).getD []
    match likelihoodLoop d m.vocab.length words 1 with
    | .error e => .error e
    | .ok likelihood =>
      match posteriorsLoop m words rest with
      | .error e => .error e
      | .ok l => .ok ((cp.1, cp.2 * likelihood) :: l)

/-- `NaiveBayesClassifier._calculate_posteriors(text)`: tokenize, then run
the label loop over `class_priors`. -/
def NaiveBayesClassifier.calculate_posteriors (m : NaiveBayesClassifier) (text : String) :
    Except String (List (String × ℚ)) :=
  posteriorsLoop m (m.tokenizer.apply text) m.class_priors

/-- One comparison step of Python `max(...)`: the incumbent is replaced only
on a strictly greater value, so the first maximal element wins. -/
def pymaxStep (best q : String × ℚ) : String × ℚ :=
  if q.2 > best.2 then q else best

/-- Python `max(posteriors, key=posteriors.get)`: the first key attaining the
maximal value wins (replacement only on strict `>`); `none` models the
`ValueError` that `max` raises on an empty dict. -/
def pymax (l : List (String × ℚ)) : Option String :=
  match l with
  | [] => none
  | p :: rest => some ((rest.foldl pymaxStep p).1)

/-- The loop of `predict`: posteriors for each text (propagating their
`ZeroDivisionError`), then Python `max` over the resulting dict. -/
def predictLoop (m : NaiveBayesClassifier) : List String → Except String (List (Option String))
  | [] => .ok []
  | text :: rest =>
    match m.calculate_posteriors text with
    | .error e => .error e
    | .ok posteriors =>
      match predictLoop m rest with
      | .error e => .error e
      | .ok l => .ok (pymax posteriors :: l)

/-- `NaiveBayesClassifier.predict(X)`. -/
def NaiveBayesClassifier.predict (m : NaiveBayesClassifier) (X : List String) :
    Except String (List (Option String)) :=
  predictLoop m X

/-- The `for index in range(len(X))` loop of `classify`, threading the four
counters `(TP, FP, FN, TN)`.  `_calculate_posteriors` may itself raise
`ZeroDivisionError`; then `posteriors[category]` raises `KeyError` on an
unknown category; then `cat_prob / total_sum` raises `ZeroDivisionError`
when the posteriors sum to zero. -/
def classifyLoop (m : NaiveBayesClassifier) (umbral : ℚ) (category : String) :
    List (String × String) → Nat × Nat × Nat × Nat → Except String (Nat × Nat × Nat × Nat)
  | [], acc => .ok acc
  | (text, label) :: rest, acc =>
    match m.calculate_posteriors text with
    | .error e => .error e
    | .ok posteriors =>
      match alookup posteriors category with
      | none => .error "KeyError"
      | some cat_prob =>
        let total_sum := (posteriors.map (fun p => p.2)).sum
        if total_sum = 0 then .error "ZeroDivisionError"
        else
          let acc :=
            if cat_prob / total_sum > umbral then
              if label = category then (acc.1 + 1, acc.2.1, acc.2.2.1, acc.2.2.2)
              else (acc.1, acc.2.1 + 1, acc.2.2.1, acc.2.2.2)
            else
              if label = category then (acc.1, acc.2.1, acc.2.2.1 + 1, acc.2.2.2)
              else (acc.1, acc.2.1, acc.2.2.1, acc.2.2.2 + 1)
          classifyLoop m umbral category rest acc

/-- `NaiveBayesClassifier.classify(X, y, umbral, category) -> (TP, FP, FN, TN)`. -/
def NaiveBayesClassifier.classify (m : NaiveBayesClassifier) (X y : List String)
    (umbral : ℚ) (category : String) : Except String (Nat × Nat × Nat × Nat) :=
  classifyLoop m umbral category (X.zip y) (0, 0, 0, 0)

/-- One row of a binary one-vs-rest confusion matrix. -/
structure ConfusionCounts where
  TP : Nat
  FP : Nat
  TN : Nat
  FN : Nat

/-- The four derived values `compute_metrics` stores per category. -/
structure MetricValues where
  accuracy : ℚ
  precision : ℚ
  recall' : ℚ
  f1_score : ℚ

/-- Body of `compute_metrics` for one category: every ratio is guarded by a
`if denominator > 0 else 0` conditional. -/
def computeMetricsOne (v : ConfusionCounts) : MetricValues :=
  let TP : ℚ := (v.TP : Nat)
  let FP : ℚ := (v.FP : Nat)
  let TN : ℚ := (v.TN : Nat)
  let FN : ℚ := (v.FN : Nat)
  let accuracy := if TP + FP + TN + FN > 0 then (TP + TN) / (TP + FP + TN + FN) else 0
  let precision := if TP + FP > 0 then TP / (TP + FP) else 0
  let recall' := if TP + FN > 0 then TP / (TP + FN) else 0
  let f1_score :=
    if precision + recall' > 0 then 2 * (precision * recall') / (precision + recall') else 0
  ⟨accuracy, precision, recall', f1_score⟩

/-- `compute_metrics(confusion_matrix)`. -/
def compute_metrics (cm : List (String × ConfusionCounts)) : List (String × MetricValues) :=
  cm.map (fun p => (p.1, computeMetricsOne p.2))

/-- The rate computations of `roc` (lines 421-422):
`TP_percentage = TP / (TP + FN)` then `FP_percentage = FP / (FP + TN)`,
each an unguarded float division that raises `ZeroDivisionError` on a zero
denominator. -/
def rocRates (TP FP FN TN : Nat) : Except String (ℚ × ℚ) :=
  if TP + FN = 0 then .error "ZeroDivisionError"
  else if FP + TN = 0 then .error "ZeroDivisionError"
  else .ok (((TP : Nat) : ℚ) / (((TP : Nat) : ℚ) + ((FN : Nat) : ℚ)),
            ((FP : Nat) : ℚ) / (((FP : Nat) : ℚ) + ((TN : Nat) : ℚ)))

/-- `np.linspace(0.0, 1.0, 11)`, exact in ℚ. -/
def rocThresholds : List ℚ :=
  (List.range 11).map (fun i => (i : ℚ) / 10)

/-- The per-category threshold sweep of `roc`: at each threshold call
`classify` and turn the counts into a `(TP_percentage, FP_percentage)` point.
Plotting is presentation glue and is not modelled. -/
def rocPoints (m : NaiveBayesClassifier) (x_test y_test : List String) (category : String) :
    Except String (List (ℚ × ℚ)) :=
  rocThresholds.mapM (fun threshold =>
    match m.classify x_test y_test threshold category with
    | .error e => .error e
    | .ok r =>
      match rocRates r.1 r.2.1 r.2.2.1 r.2.2.2 with
      | .error e => .error e
      | .ok p => .ok p)

/-- Abstraction of the `numpy` global pseudo-random generator used by
`train_test_split`: `seed` models `np.random.seed(s)` (it fixes the state
from the integer seed alone), and `sample` models `df.sample(frac=1)`
(it permutes the rows while advancing the state it is handed). -/
structure RandomModel (S : Type) where
  seed : Nat → S
  sample : S → List (String × String) → List (String × String) × S

/-- `df[stratify_column].unique()`: distinct categories in first-seen order.
Rows are `(titular, categoria)` pairs with the category second. -/
def uniqueCats (df : List (String × String)) : List String :=
  (df.map (fun r => r.2)).foldl setInsert []

/-- The per-category loop of `train_test_split`: filter the category's rows,
shuffle them, cut at `int(len * (1 - test_size))` (truncation equals the
floor for the nonnegative products that arise when `0 ≤ test_size ≤ 1`),
and keep the head as the train piece, the tail as the test piece.
`dropna(how='all')` never removes a row here because rows are plain strings,
and concatenating an empty piece is a no-op, so the `if not empty` guards
around `pd.concat` do not change the result. -/
def stratifiedPieces {S : Type} (rm : RandomModel S) (df : List (String × String))
    (test_size : ℚ) :
    List String → S → List (List (String × String) × List (String × String)) × S
  | [], st => ([], st)
  | category :: cats, st =>
    let s := rm.sample st (df.filter (fun r => r.2 = category))
    let split_idx := (Rat.floor ((s.1.length : ℚ) * (1 - test_size))).toNat
    let rest := stratifiedPieces rm df test_size cats s.2
    ((s.1.take split_idx, s.1.drop split_idx) :: rest.1, rest.2)

/-- `train_test_split(df, test_size, random_state, stratify_column='categoria')`.
The guard `if random_state:` is Python truthiness: `None` and `0` both skip
`np.random.seed`, leaving the ambient generator state `st` in use. -/
def train_test_split {S : Type} (rm : RandomModel S) (st : S) (df : List (String × String))
    (test_size : ℚ) (random_state : Option Nat) :
    List (String × String) × List (String × String) × S :=
  let st := match random_state with
    | some s => if s = 0 then st else rm.seed s
    | none => st
  let pieces := stratifiedPieces rm df test_size (uniqueCats df) st
  let train_set := pieces.1.foldl (fun acc p => acc ++ p.1) []
  let test_set := pieces.1.foldl (fun acc p => acc ++ p.2) []
  let str := rm.sample pieces.2 train_set
  let ste := rm.sample str.2 test_set
  (str.1, ste.1, ste.2)

/-! ## Specification-side definitions (from the spec's words, for refinement) -/

/-- `count(c, t)`: the stored count of token `t` under category `c`, `0` for
tokens unseen under `c`. -/
def countOf (m : NaiveBayesClassifier) (c t : String) : Nat :=
  (alookup ((alookup m.class_word_counts c).getD []) t).getD 0

/-- `total(c)`: the total token count of category `c`. -/
def totalOf (m : NaiveBayesClassifier) (c : String) : Nat :=
  totalOfEntry ((alookup m.class_word_counts c).getD [])

/-- The spec formula
`posterior[c] = prior[c] * Π over tokens t ( (count(c,t) + 1) / (total(c) + |Vocabulary|) )`. -/
def posteriorSpec (m : NaiveBayesClassifier) (c : String) (prior : ℚ) (text : String) : ℚ :=
  prior * ((m.tokenizer.apply text).map (fun t =>
    ((countOf m c t : Nat) + 1 : ℚ) / ((totalOf m c : Nat) + (m.vocab.length : ℚ)))).prod

/-- The normalized score `posterior[category] / Σ_c posterior[c]` that
`classify` thresholds.  The defaults for a failed posterior computation or
a missing key are junk values, unreachable whenever `classify` actually
returns counts (the situation the claims quantify over). -/
def scoreOf (m : NaiveBayesClassifier) (category : String) (text : String) : ℚ :=
  let posteriors := ((m.calculate_posteriors text).toOption).getD []
  ((alookup posteriors category).getD 0) / ((posteriors.map (fun p => p.2)).sum)

/-- The four counts of `classify` restated declaratively: a document is
counted positive exactly when its normalized score strictly exceeds the
threshold, and the true label decides which side of the confusion matrix. -/
def classifySpec (m : NaiveBayesClassifier) (docs : List (String × String))
    (umbral : ℚ) (category : String) : Nat × Nat × Nat × Nat :=
  (docs.countP (fun r => decide (umbral < scoreOf m category r.1) && decide (r.2 = category)),
   docs.countP (fun r => decide (umbral < scoreOf m category r.1) && decide (r.2 ≠ category)),
   docs.countP (fun r => decide (¬ umbral < scoreOf m category r.1) && decide (r.2 = category)),
   docs.countP (fun r => decide (¬ umbral < scoreOf m category r.1) && decide (r.2 ≠ category)))

/-- The sum of the `'__total__'` counters over all categories of a count
table (the numerators of the priors). -/
def totalsSum (cwc : List (String × List (String × Nat))) : Nat :=
  (cwc.map (fun p => totalOfEntry p.2)).sum

/-! ## Concrete artifacts used by witnesses and counterexamples -/

/-- The `identity_filter` / `identity` tokenizer configuration. -/
def tokIdentity : Tokenizer :=
  { filter := fun _ => true, sanitizer := fun w => w }

/-- The training texts of the spec's §8 scenario. -/
def scenarioX : List String :=
  ["stocks rally today", "team wins championship", "market crash fears"]

/-- The training labels of the spec's §8 scenario. -/
def scenarioY : List String :=
  ["finance", "sports", "finance"]

/-- The model the spec's §8 scenario trains (the `fit` call succeeds, so the
`error` fallback arm is never taken). -/
def scenarioModel : NaiveBayesClassifier :=
  match (NaiveBayesClassifier.init tokIdentity).fit scenarioX scenarioY with
  | .ok m => m
  | .error _ => NaiveBayesClassifier.init tokIdentity

/-- A degenerate but genuinely fit-produced model: its single training
document tokenizes to nothing, so the vocabulary is empty, the sole
category `"c"` has total 0 and prior `0/1 = 0`.  Scoring any text with at
least one token then divides by `total + |vocab| = 0`. -/
def cornerModel : NaiveBayesClassifier :=
  match (NaiveBayesClassifier.init tokIdentity).fit [""] ["c"] with
  | .ok m => m
  | .error _ => NaiveBayesClassifier.init tokIdentity

/-- A one-category training set whose single document yields two tokens:
each document yields at least one token, yet the prior of `"x"` is `2/1`. -/
def twoTokenModel : NaiveBayesClassifier :=
  match (NaiveBayesClassifier.init tokIdentity).fit ["a b"] ["x"] with
  | .ok m => m
  | .error _ => NaiveBayesClassifier.init tokIdentity

/-- A two-category training set in which every document yields exactly one
token, so the priors genuinely sum to 1. -/
def oneTokenModel : NaiveBayesClassifier :=
  match (NaiveBayesClassifier.init tokIdentity).fit ["aa", "bb"] ["x", "y"] with
  | .ok m => m
  | .error _ => NaiveBayesClassifier.init tokIdentity

/-- A tiny instance of the random-generator abstraction: the state is one
bit, seeding clears it, and shuffling reverses the rows exactly when the
bit is set (enough to observe dependence on the ambient state). -/
def rmBool : RandomModel Bool :=
  { seed := fun _ => false
    sample := fun b rows => (if b then rows.reverse else rows, b) }

/-- Two same-category rows for exercising `train_test_split`. -/
def dfPair : List (String × String) :=
  [("a", "c"), ("b", "c")]

/-! ## Helper lemmas -/

theorem foldl_mul_eq_prod {α : Type} (f : α → ℚ) (l : List α) :
    ∀ a : ℚ, l.foldl (fun acc w => acc * f w) a = a * (l.map f).prod := by
  induction l with
  | nil => intro a; simp
  | cons w l ih => intro a; simp [ih, mul_assoc]

theorem alookup_eq_none_iff {α : Type} (l : List (String × α)) (k : String) :
    alookup l k = none ↔ k ∉ l.map (fun p => p.1) := by
  induction l with
  | nil => simp [alookup]
  | cons p rest ih =>
    by_cases h : p.1 = k
    · subst h
      simp [alookup]
    · simp [alookup, h, ih]
      intro hk
      exact fun he => h he.symm

theorem alookup_isSome_iff {α : Type} (l : List (String × α)) (k : String) :
    (alookup l k).isSome = true ↔ k ∈ l.map (fun p => p.1) := by
  rw [Option.isSome_iff_ne_none, ne_eq, alookup_eq_none_iff, not_not]

theorem alookup_append {α : Type} (l₁ l₂ : List (String × α)) (k : String) :
    alookup (l₁ ++ l₂) k =
      match alookup l₁ k with
      | some v => some v
      | none => alookup l₂ k := by
  induction l₁ with
  | nil => simp [alookup]
  | cons p rest ih =>
    by_cases h : p.1 = k <;> simp [alookup, h, ih]

theorem alookup_of_mem_nodup {α : Type} :
    ∀ {l : List (String × α)}, (l.map (fun p => p.1)).Nodup →
      ∀ {p : String × α}, p ∈ l → alookup l p.1 = some p.2 := by
  intro l
  induction l with
  | nil => intro _ p hp; cases hp
  | cons q rest ih =>
    intro hnd p hp
    rw [List.map_cons, List.nodup_cons] at hnd
    rcases List.mem_cons.mp hp with rfl | hmem
    · simp [alookup]
    · have hne : q.1 ≠ p.1 := by
        intro he
        exact hnd.1 (he ▸ List.mem_map.mpr ⟨p, hmem, rfl⟩)
      simp [alookup, hne, ih hnd.2 hmem]

theorem updateEntry_map_fst {α : Type} (f : α → α) :
    ∀ (l : List (String × α)) (k : String),
      (updateEntry l k f).map (fun p => p.1) = l.map (fun p => p.1) := by
  intro l
  induction l with
  | nil => intro k; rfl
  | cons p rest ih =>
    intro k
    by_cases h : p.1 = k <;> simp [updateEntry, h, ih]

theorem mem_setInsert (x : String) (s : List String) (w : String) :
    x ∈ setInsert s w ↔ x ∈ s ∨ x = w := by
  by_cases h : w ∈ s
  · simp only [setInsert, if_pos h]
    constructor
    · exact Or.inl
    · rintro (hx | rfl)
      · exact hx
      · exact h
  · simp [setInsert, if_neg h]

theorem setInsert_ne_nil (s : List String) (w : String) : setInsert s w ≠ [] := by
  by_cases h : w ∈ s
  · intro he
    rw [setInsert, if_pos h] at he
    exact (List.ne_nil_of_mem h) he
  · rw [setInsert, if_neg h]
    simp

theorem setInsert_nodup {s : List String} (h : s.Nodup) (w : String) :
    (setInsert s w).Nodup := by
  by_cases hw : w ∈ s
  · rwa [setInsert, if_pos hw]
  · rw [setInsert, if_neg hw]
    simp [List.nodup_append, h, hw]

theorem mem_foldl_setInsert (l : List String) :
    ∀ (s : List String) (x : String), x ∈ l.foldl setInsert s ↔ x ∈ s ∨ x ∈ l := by
  induction l with
  | nil => intro s x; simp
  | cons w l ih =>
    intro s x
    rw [List.foldl_cons, ih, mem_setInsert]
    constructor
    · rintro ((hx | rfl) | hx)
      · exact Or.inl hx
      · exact Or.inr (List.mem_cons_self _ _)
      · exact Or.inr (List.mem_cons_of_mem _ hx)
    · rintro (hx | hx)
      · exact Or.inl (Or.inl hx)
      · rcases List.mem_cons.mp hx with rfl | hx
        · exact Or.inl (Or.inr rfl)
        · exact Or.inr hx

theorem foldl_setInsert_nodup (l : List String) :
    ∀ {s : List String}, s.Nodup → (l.foldl setInsert s).Nodup := by
  induction l with
  | nil => intro s h; exact h
  | cons w l ih => intro s h; exact ih (setInsert_nodup h w)

theorem totalOfEntry_dictBump_total (d : List (String × Nat)) (n : Nat) :
    totalOfEntry (dictBump d "__total__" n) = totalOfEntry d + n := by
  induction d with
  | nil => simp [totalOfEntry, dictBump, alookup]
  | cons p rest ih =>
    by_cases h : p.1 = "__total__"
    · simp [totalOfEntry, dictBump, alookup, h]
    · simp only [totalOfEntry, dictBump, alookup, if_neg h] at *
      exact ih

theorem totalOfEntry_dictBump_ne (d : List (String × Nat)) (w : String) (n : Nat)
    (hw : w ≠ "__total__") : totalOfEntry (dictBump d w n) = totalOfEntry d := by
  induction d with
  | nil => simp [totalOfEntry, dictBump, alookup, hw]
  | cons p rest ih =>
    by_cases h : p.1 = w
    · simp [totalOfEntry, dictBump, alookup, h, hw]
    · by_cases ht : p.1 = "__total__"
      · simp [totalOfEntry, dictBump, alookup, h, ht, Ne.symm hw]
      · simp only [totalOfEntry, dictBump, alookup, if_neg h, if_neg ht] at *
        exact ih

theorem totalOfEntry_foldl_dictBump (words : List String) (hw : "__total__" ∉ words) :
    ∀ d : List (String × Nat),
      totalOfEntry (words.foldl (fun d w => dictBump d w 1) d) = totalOfEntry d := by
  induction words with
  | nil => intro d; rfl
  | cons w words ih =>
    intro d
    have hw' : w ≠ "__total__" := fun he => hw (he ▸ List.mem_cons_self _ _)
    rw [List.foldl_cons, ih (fun h => hw (List.mem_cons_of_mem _ h)),
      totalOfEntry_dictBump_ne d w 1 hw']

theorem totalOfEntry_fitWords (words : List String) (d : List (String × Nat))
    (hw : "__total__" ∉ words) :
    totalOfEntry (fitWords words d) = totalOfEntry d + words.length := by
  rw [fitWords, totalOfEntry_foldl_dictBump words hw, totalOfEntry_dictBump_total]

theorem totalsSum_updateEntry (n : Nat) (f : List (String × Nat) → List (String × Nat))
    (hf : ∀ d, totalOfEntry (f d) = totalOfEntry d + n) :
    ∀ (l : List (String × List (String × Nat))) (k : String),
      (alookup l k).isSome = true → totalsSum (updateEntry l k f) = totalsSum l + n := by
  intro l
  induction l with
  | nil => intro k h; simp [alookup] at h
  | cons p rest ih =>
    intro k h
    by_cases hk : p.1 = k
    · simp [updateEntry, hk, totalsSum, hf p.2]
      omega
    · rw [alookup, if_neg hk] at h
      simp only [updateEntry, if_neg hk, totalsSum, List.map_cons, List.sum_cons] at *
      rw [ih k h]
      omega

theorem totalsSum_append_single (l : List (String × List (String × Nat)))
    (e : String × List (String × Nat)) :
    totalsSum (l ++ [e]) = totalsSum l + totalOfEntry e.2 := by
  simp [totalsSum]

theorem updateEntry_append_fresh {α : Type} (f : α → α) (k : String) (v : α) :
    ∀ l : List (String × α), alookup l k = none →
      updateEntry (l ++ [(k, v)]) k f = l ++ [(k, f v)] := by
  intro l
  induction l with
  | nil => intro _; simp [updateEntry]
  | cons p rest ih =>
    intro h
    rw [alookup] at h
    by_cases hk : p.1 = k
    · rw [if_pos hk] at h; cases h
    · rw [if_neg hk] at h
      simp [updateEntry, hk, ih h]

theorem totalsSum_fitDoc (tok : Tokenizer)
    (acc : List String × List (String × List (String × Nat))) (doc : String × String)
    (hw : "__total__" ∉ tok.apply doc.1) :
    totalsSum (fitDoc tok acc doc).2 = totalsSum acc.2 + (tok.apply doc.1).length := by
  have hf : ∀ d, totalOfEntry (fitWords (tok.apply doc.1) d) =
      totalOfEntry d + (tok.apply doc.1).length :=
    fun d => totalOfEntry_fitWords _ d hw
  rcases hs : alookup acc.2 doc.2 with _ | v
  · simp only [fitDoc, hs, Option.isSome_none, Bool.false_eq_true, if_false]
    rw [updateEntry_append_fresh _ _ _ acc.2 hs, totalsSum_append_single]
    have h0 : totalOfEntry [(("__total__" : String), 0)] = 0 := rfl
    rw [hf, h0, Nat.zero_add]
  · simp only [fitDoc, hs, Option.isSome_some, if_true]
    exact totalsSum_updateEntry _ _ hf acc.2 doc.2 (by rw [hs]; rfl)

theorem totalsSum_fitFold (tok : Tokenizer) (docs : List (String × String))
    (hw : ∀ d ∈ docs, "__total__" ∉ tok.apply d.1) :
    ∀ acc, totalsSum ((docs.foldl (fitDoc tok) acc).2) =
      totalsSum acc.2 + (docs.map (fun d => (tok.apply d.1).length)).sum := by
  induction docs with
  | nil => intro acc; simp
  | cons doc docs ih =>
    intro acc
    rw [List.foldl_cons, ih (fun d hd => hw d (List.mem_cons_of_mem _ hd)),
      totalsSum_fitDoc tok acc doc (hw doc (List.mem_cons_self _ _)), List.map_cons,
      List.sum_cons]
    omega

theorem priorsOf_ok {cwc : List (String × List (String × Nat))} {n : Nat}
    {l : List (String × ℚ)} (h : priorsOf cwc n = .ok l) :
    l = cwc.map (fun p => (p.1, (totalOfEntry p.2 : ℚ) / (n : ℚ))) ∧ (cwc = [] ∨ n ≠ 0) := by
  induction cwc generalizing l with
  | nil =>
    rw [priorsOf] at h
    cases h
    exact ⟨rfl, Or.inl rfl⟩
  | cons p rest ih =>
    rw [priorsOf] at h
    by_cases hn : n = 0
    · rw [if_pos hn] at h; cases h
    · rw [if_neg hn] at h
      rcases hr : priorsOf rest n with e | l'
      · rw [hr] at h; cases h
      · rw [hr] at h
        cases h
        obtain ⟨hl, _⟩ := ih hr
        exact ⟨by rw [List.map_cons, hl], Or.inr hn⟩

theorem fit_ok {m m' : NaiveBayesClassifier} {X y : List String}
    (h : m.fit X y = .ok m') :
    m'.tokenizer = m.tokenizer ∧
    m'.vocab = ((X.zip y).foldl (fitDoc m.tokenizer) (m.vocab, m.class_word_counts)).1 ∧
    m'.class_word_counts =
      ((X.zip y).foldl (fitDoc m.tokenizer) (m.vocab, m.class_word_counts)).2 ∧
    m'.class_priors =
      ((X.zip y).foldl (fitDoc m.tokenizer) (m.vocab, m.class_word_counts)).2.map
        (fun p => (p.1, (totalOfEntry p.2 : ℚ) / (y.length : ℚ))) ∧
    (((X.zip y).foldl (fitDoc m.tokenizer) (m.vocab, m.class_word_counts)).2 = [] ∨
      y.length ≠ 0) := by
  rw [NaiveBayesClassifier.fit] at h
  rcases hp : priorsOf ((X.zip y).foldl (fitDoc m.tokenizer) (m.vocab, m.class_word_counts)).2
      y.length with e | priors
  · rw [hp] at h; cases h
  · rw [hp] at h
    cases h
    obtain ⟨hl, hn⟩ := priorsOf_ok hp
    exact ⟨rfl, rfl, rfl, by rw [← hl], hn⟩

theorem fitDoc_map_fst (tok : Tokenizer)
    (acc : List String × List (String × List (String × Nat))) (doc : String × String) :
    ((fitDoc tok acc doc).2).map (fun p => p.1) =
      setInsert (acc.2.map (fun p => p.1)) doc.2 := by
  rcases hs : alookup acc.2 doc.2 with _ | v
  · have hmem : doc.2 ∉ acc.2.map (fun p => p.1) :=
      (alookup_eq_none_iff acc.2 doc.2).mp hs
    simp only [fitDoc, hs, Option.isSome_none, Bool.false_eq_true, if_false]
    rw [updateEntry_map_fst, setInsert, if_neg hmem]
    simp
  · have hmem : doc.2 ∈ acc.2.map (fun p => p.1) := by
      rw [← alookup_isSome_iff, hs]; rfl
    simp only [fitDoc, hs, Option.isSome_some, if_true]
    rw [updateEntry_map_fst, setInsert, if_pos hmem]

theorem fitFold_map_fst (tok : Tokenizer) (docs : List (String × String)) :
    ∀ acc, ((docs.foldl (fitDoc tok) acc).2).map (fun p => p.1) =
      (docs.map (fun d => d.2)).foldl setInsert (acc.2.map (fun p => p.1)) := by
  induction docs with
  | nil => intro acc; rfl
  | cons doc docs ih =>
    intro acc
    rw [List.foldl_cons, ih, List.map_cons, List.foldl_cons, fitDoc_map_fst]

theorem pymax_foldl_spec (rest : List (String × ℚ)) :
    ∀ p : String × ℚ, ∃ l₁ l₂,
      p :: rest = l₁ ++ (rest.foldl pymaxStep p) :: l₂ ∧
      (∀ q ∈ l₁, q.2 < (rest.foldl pymaxStep p).2) ∧
      (∀ q ∈ l₂, q.2 ≤ (rest.foldl pymaxStep p).2) := by
  induction rest with
  | nil =>
    intro p
    exact ⟨[], [], rfl, by simp, by simp⟩
  | cons q rest ih =>
    intro p
    obtain ⟨l₁, l₂, heq, hlt, hle⟩ := ih (pymaxStep p q)
    rw [List.foldl_cons]
    set b := rest.foldl pymaxStep (pymaxStep p q) with hb
    by_cases hq : q.2 > p.2
    · have hstep : pymaxStep p q = q := if_pos hq
      rw [hstep] at heq
      have hqb : q.2 ≤ b.2 := by
        rcases l₁ with _ | ⟨r, l₁'⟩
        · rw [List.nil_append, List.cons.injEq] at heq
          exact le_of_eq (congrArg Prod.snd heq.1)
        · rw [List.cons_append, List.cons.injEq] at heq
          refine le_of_lt ?_
          rw [heq.1]
          exact hlt r (List.mem_cons_self _ _)
      refine ⟨p :: l₁, l₂, ?_, ?_, hle⟩
      · rw [List.cons_append, ← heq]
      · intro r hr
        rcases List.mem_cons.mp hr with rfl | hr
        · exact lt_of_lt_of_le hq hqb
        · exact hlt r hr
    · have hstep : pymaxStep p q = p := if_neg hq
      have hqp : q.2 ≤ p.2 := le_of_not_lt hq
      rw [hstep] at heq
      rcases l₁ with _ | ⟨r, l₁'⟩
      · rw [List.nil_append, List.cons.injEq] at heq
        refine ⟨[], q :: l₂, ?_, by simp, ?_⟩
        · rw [List.nil_append, ← heq.1, heq.2]
        · intro r hr
          rcases List.mem_cons.mp hr with rfl | hr
          · exact le_trans hqp (le_of_eq (congrArg Prod.snd heq.1))
          · exact hle r hr
      · rw [List.cons_append, List.cons.injEq] at heq
        have hpb : p.2 < b.2 := by
          rw [heq.1]
          exact hlt r (List.mem_cons_self _ _)
        refine ⟨p :: q :: l₁', l₂, ?_, ?_, hle⟩
        · rw [List.cons_append, List.cons_append, heq.2]
        · intro r' hr'
          rcases List.mem_cons.mp hr' with rfl | hr'
          · exact hpb
          · rcases List.mem_cons.mp hr' with rfl | hr'
            · exact lt_of_le_of_lt hqp hpb
            · refine hlt r' (List.mem_cons_of_mem _ hr')

theorem pymax_spec {l : List (String × ℚ)} (h : l ≠ []) :
    ∃ c v l₁ l₂, pymax l = some c ∧ l = l₁ ++ (c, v) :: l₂ ∧
      (∀ q ∈ l₁, q.2 < v) ∧ (∀ q ∈ l₂, q.2 ≤ v) := by
  rcases l with _ | ⟨p, rest⟩
  · exact absurd rfl h
  · obtain ⟨l₁, l₂, heq, hlt, hle⟩ := pymax_foldl_spec rest p
    refine ⟨(rest.foldl pymaxStep p).1, (rest.foldl pymaxStep p).2, l₁, l₂, rfl, ?_, hlt, hle⟩
    rw [← heq]

theorem sum_map_div (l : List ℚ) (c : ℚ) : (l.map (fun x => x / c)).sum = l.sum / c := by
  induction l with
  | nil => simp
  | cons x l ih => simp [ih, add_div]

theorem likelihoodLoop_ok_imp (d : List (String × Nat)) (V : Nat) :
    ∀ (words : List String) (acc r : ℚ), likelihoodLoop d V words acc = .ok r →
      r = acc * (words.map (fun word =>
        ((((alookup d word).getD 0 : Nat) : ℚ) + 1) /
          ((((alookup d "__total__").getD 0 : Nat) : ℚ) + (V : ℚ)))).prod := by
  intro words
  induction words with
  | nil =>
    intro acc r h
    cases h
    simp
  | cons w rest ih =>
    intro acc r h
    simp only [likelihoodLoop] at h
    by_cases hz : (((alookup d "__total__").getD 0 : Nat) : ℚ) + (V : ℚ) = 0
    · rw [if_pos hz] at h
      cases h
    · rw [if_neg hz] at h
      rw [List.map_cons, List.prod_cons, ← mul_assoc]
      exact ih _ _ h

theorem likelihoodLoop_ok_of_ne (d : List (String × Nat)) (V : Nat)
    (h : (((alookup d "__total__").getD 0 : Nat) : ℚ) + (V : ℚ) ≠ 0) :
    ∀ (words : List String) (acc : ℚ), ∃ r, likelihoodLoop d V words acc = .ok r := by
  intro words
  induction words with
  | nil => intro acc; exact ⟨acc, rfl⟩
  | cons w rest ih =>
    intro acc
    simp only [likelihoodLoop, if_neg h]
    exact ih _

theorem posteriorsLoop_ok_imp (m : NaiveBayesClassifier) (words : List String) :
    ∀ (priors l : List (String × ℚ)), posteriorsLoop m words priors = .ok l →
      l = priors.map (fun cp => (cp.1, cp.2 * (words.map (fun word =>
        ((((alookup ((alookup m.class_word_counts cp.1).getD []) word).getD 0 : Nat) : ℚ) + 1) /
          ((((alookup ((alookup m.class_word_counts cp.1).getD [])
              "__total__").getD 0 : Nat) : ℚ) + (m.vocab.length : ℚ)))).prod)) := by
  intro priors
  induction priors with
  | nil =>
    intro l h
    cases h
    rfl
  | cons cp rest ih =>
    intro l h
    simp only [posteriorsLoop] at h
    rcases hlk : likelihoodLoop ((alookup m.class_word_counts cp.1).getD [])
        m.vocab.length words 1 with e | lk
    · rw [hlk] at h
      cases h
    · rw [hlk] at h
      rcases hrest : posteriorsLoop m words rest with e | l2
      · rw [hrest] at h
        cases h
      · rw [hrest] at h
        cases h
        have hlkv := likelihoodLoop_ok_imp _ _ words 1 lk hlk
        rw [one_mul] at hlkv
        rw [List.map_cons, ih l2 hrest, hlkv]

theorem posteriorsLoop_keys (m : NaiveBayesClassifier) (words : List String)
    (priors l : List (String × ℚ)) (h : posteriorsLoop m words priors = .ok l) :
    l.map (fun p => p.1) = priors.map (fun p => p.1) := by
  rw [posteriorsLoop_ok_imp m words priors l h, List.map_map]
  rfl

theorem posteriorsLoop_ok_of_vocab (m : NaiveBayesClassifier) (words : List String)
    (hV : m.vocab ≠ []) :
    ∀ priors : List (String × ℚ), ∃ l, posteriorsLoop m words priors = .ok l := by
  have hVq : (0 : ℚ) < (m.vocab.length : ℚ) := by
    have : 0 < m.vocab.length := List.length_pos.mpr hV
    exact_mod_cast this
  intro priors
  induction priors with
  | nil => exact ⟨[], rfl⟩
  | cons cp rest ih =>
    obtain ⟨l2, hl2⟩ := ih
    have hden : (((alookup ((alookup m.class_word_counts cp.1).getD [])
        "__total__").getD 0 : Nat) : ℚ) + (m.vocab.length : ℚ) ≠ 0 := by
      have h1 : (0 : ℚ) ≤ (((alookup ((alookup m.class_word_counts cp.1).getD [])
          "__total__").getD 0 : Nat) : ℚ) := Nat.cast_nonneg _
      have := add_pos_of_nonneg_of_pos h1 hVq
      exact ne_of_gt this
    obtain ⟨r, hr⟩ := likelihoodLoop_ok_of_ne _ _ hden words 1
    refine ⟨(cp.1, cp.2 * r) :: l2, ?_⟩
    simp only [posteriorsLoop, hr, hl2]

theorem posteriorsLoop_nil_words (m : NaiveBayesClassifier) :
    ∀ priors : List (String × ℚ), posteriorsLoop m [] priors = .ok priors := by
  intro priors
  induction priors with
  | nil => rfl
  | cons cp rest ih =>
    simp only [posteriorsLoop, likelihoodLoop, ih, mul_one]

theorem calculate_posteriors_ok_spec (m : NaiveBayesClassifier) (text : String)
    (ps : List (String × ℚ)) (h : m.calculate_posteriors text = .ok ps) :
    ps = m.class_priors.map (fun cp => (cp.1, posteriorSpec m cp.1 cp.2 text)) := by
  rw [posteriorsLoop_ok_imp m (m.tokenizer.apply text) m.class_priors ps h]
  refine List.map_congr_left ?_
  intro cp _
  simp only [posteriorSpec, countOf, totalOf, totalOfEntry]

theorem calculate_posteriors_ok_keys (m : NaiveBayesClassifier) (text : String)
    (ps : List (String × ℚ)) (h : m.calculate_posteriors text = .ok ps) :
    ps.map (fun p => p.1) = m.class_priors.map (fun p => p.1) :=
  posteriorsLoop_keys m (m.tokenizer.apply text) m.class_priors ps h

theorem calculate_posteriors_ok_of_vocab (m : NaiveBayesClassifier) (text : String)
    (hV : m.vocab ≠ []) : ∃ ps, m.calculate_posteriors text = .ok ps :=
  posteriorsLoop_ok_of_vocab m (m.tokenizer.apply text) hV m.class_priors

theorem countP_four_partition (docs : List (String × String)) (A B : String × String → Prop)
    [DecidablePred A] [DecidablePred B] :
    docs.countP (fun r => decide (A r) && decide (B r)) +
      docs.countP (fun r => decide (A r) && decide (¬ B r)) +
      docs.countP (fun r => decide (¬ A r) && decide (B r)) +
      docs.countP (fun r => decide (¬ A r) && decide (¬ B r)) = docs.length := by
  induction docs with
  | nil => rfl
  | cons d docs ih =>
    by_cases hA : A d <;> by_cases hB : B d <;>
      (simp [List.countP_cons, hA, hB] at ih ⊢; try omega)

theorem classifySpec_cons (m : NaiveBayesClassifier) (t lb : String)
    (docs : List (String × String)) (u : ℚ) (cat : String) :
    (classifySpec m ((t, lb) :: docs) u cat).1 =
      (classifySpec m docs u cat).1 + (if u < scoreOf m cat t ∧ lb = cat then 1 else 0) ∧
    (classifySpec m ((t, lb) :: docs) u cat).2.1 =
      (classifySpec m docs u cat).2.1 + (if u < scoreOf m cat t ∧ lb ≠ cat then 1 else 0) ∧
    (classifySpec m ((t, lb) :: docs) u cat).2.2.1 =
      (classifySpec m docs u cat).2.2.1 +
        (if ¬ u < scoreOf m cat t ∧ lb = cat then 1 else 0) ∧
    (classifySpec m ((t, lb) :: docs) u cat).2.2.2 =
      (classifySpec m docs u cat).2.2.2 +
        (if ¬ u < scoreOf m cat t ∧ lb ≠ cat then 1 else 0) := by
  refine ⟨?_, ?_, ?_, ?_⟩ <;>
    (simp only [classifySpec, List.countP_cons]
     congr 1
     by_cases h1 : u < scoreOf m cat t <;> by_cases h2 : lb = cat <;> simp [h1, h2])

theorem classifyLoop_ok (m : NaiveBayesClassifier) (u : ℚ) (cat : String) :
    ∀ (docs : List (String × String)) (acc res : Nat × Nat × Nat × Nat),
      classifyLoop m u cat docs acc = .ok res →
      res.1 = acc.1 + (classifySpec m docs u cat).1 ∧
      res.2.1 = acc.2.1 + (classifySpec m docs u cat).2.1 ∧
      res.2.2.1 = acc.2.2.1 + (classifySpec m docs u cat).2.2.1 ∧
      res.2.2.2 = acc.2.2.2 + (classifySpec m docs u cat).2.2.2 := by
  intro docs
  induction docs with
  | nil =>
    intro acc res h
    simp only [classifyLoop] at h
    cases h
    simp [classifySpec]
  | cons d docs ih =>
    intro acc res h
    obtain ⟨t, lb⟩ := d
    simp only [classifyLoop] at h
    rcases hcp : m.calculate_posteriors t with e | posteriors
    · rw [hcp] at h; cases h
    · rw [hcp] at h
      simp only [] at h
      rcases hlk : alookup posteriors cat with _ | cp
      · rw [hlk] at h; cases h
      · rw [hlk] at h
        simp only [] at h
        set ts := (posteriors.map (fun p => p.2)).sum with hts
        by_cases hz : ts = 0
        · rw [if_pos hz] at h; cases h
        · rw [if_neg hz] at h
          have hscore : scoreOf m cat t = cp / ts := by
            simp only [scoreOf, hcp, Except.toOption, Option.getD_some]
            rw [hlk, ← hts]
            rfl
          obtain ⟨c1, c2, c3, c4⟩ := classifySpec_cons m t lb docs u cat
          rw [hscore] at c1 c2 c3 c4
          by_cases hgt : cp / ts > u <;> by_cases hlc : lb = cat
          · rw [if_pos hgt, if_pos hlc] at h
            obtain ⟨i1, i2, i3, i4⟩ := ih _ _ h
            dsimp only at i1 i2 i3 i4
            rw [c1, c2, c3, c4, if_pos ⟨hgt, hlc⟩, if_neg (fun hc => hc.2 hlc),
              if_neg (fun hc => hc.1 hgt), if_neg (fun hc => hc.1 hgt)]
            exact ⟨by omega, by omega, by omega, by omega⟩
          · rw [if_pos hgt, if_neg hlc] at h
            obtain ⟨i1, i2, i3, i4⟩ := ih _ _ h
            dsimp only at i1 i2 i3 i4
            rw [c1, c2, c3, c4, if_neg (fun hc => hlc hc.2), if_pos ⟨hgt, hlc⟩,
              if_neg (fun hc => hc.1 hgt), if_neg (fun hc => hc.1 hgt)]
            exact ⟨by omega, by omega, by omega, by omega⟩
          · rw [if_neg hgt, if_pos hlc] at h
            obtain ⟨i1, i2, i3, i4⟩ := ih _ _ h
            dsimp only at i1 i2 i3 i4
            rw [c1, c2, c3, c4, if_neg (fun hc => hgt hc.1), if_neg (fun hc => hgt hc.1),
              if_pos ⟨hgt, hlc⟩, if_neg (fun hc => hc.2 hlc)]
            exact ⟨by omega, by omega, by omega, by omega⟩
          · rw [if_neg hgt, if_neg hlc] at h
            obtain ⟨i1, i2, i3, i4⟩ := ih _ _ h
            dsimp only at i1 i2 i3 i4
            rw [c1, c2, c3, c4, if_neg (fun hc => hgt hc.1), if_neg (fun hc => hgt hc.1),
              if_neg (fun hc => hlc hc.2), if_pos ⟨hgt, hlc⟩]
            exact ⟨by omega, by omega, by omega, by omega⟩

/-! ## Claim theorems -/

/-- C1 counterexample: a trained model (non-empty fit on one document that
tokenizes to nothing) whose vocabulary is empty; scoring a text with a
token makes `_calculate_posteriors` raise `ZeroDivisionError` at
`(count + 1) / (total + |Vocabulary|) = 1/0` instead of returning the
claimed product. -/
theorem posteriors_zero_division_cex :
    (NaiveBayesClassifier.init tokIdentity).fit [""] ["c"] = .ok cornerModel ∧
    cornerModel.calculate_posteriors "hello" = .error "ZeroDivisionError" :=
  ⟨by with_unfolding_all rfl, by with_unfolding_all rfl⟩

/-- C1 amended: for every trained model and every input text, whenever
`_calculate_posteriors` returns (no `ZeroDivisionError`; guaranteed e.g.
when the vocabulary is non-empty), it returns for each category of
`class_priors` exactly
`prior[c] * Π over tokens t ((count(c,t) + 1) / (total(c) + |Vocabulary|))`
(with `count(c,t) = 0` for tokens unseen under `c`), and the posterior is
strictly positive whenever `prior[c] > 0`. -/
theorem posteriors_match_spec_and_positive (tok : Tokenizer) (X y : List String)
    (m : NaiveBayesClassifier) (h : (NaiveBayesClassifier.init tok).fit X y = .ok m)
    (text : String) :
    (∀ ps, m.calculate_posteriors text = .ok ps →
      ps = m.class_priors.map (fun cp => (cp.1, posteriorSpec m cp.1 cp.2 text))) ∧
    (m.vocab ≠ [] → ∃ ps, m.calculate_posteriors text = .ok ps) ∧
    ∀ cp ∈ m.class_priors, 0 < cp.2 → 0 < posteriorSpec m cp.1 cp.2 text := by
  refine ⟨fun ps hps => calculate_posteriors_ok_spec m text ps hps,
    fun hV => calculate_posteriors_ok_of_vocab m text hV, ?_⟩
  intro cp hcp hpos
  obtain ⟨htok, hvoc, hcwc, hpri, hn⟩ := fit_ok h
  have hkeys : (m.class_word_counts.map (fun p => p.1)).Nodup := by
    rw [hcwc, fitFold_map_fst]
    refine foldl_setInsert_nodup _ ?_
    simp [NaiveBayesClassifier.init]
  rw [hpri] at hcp
  obtain ⟨p, hpmem, hpe⟩ := List.mem_map.mp hcp
  have hcp2 : cp.2 = (totalOfEntry p.2 : ℚ) / (y.length : ℚ) := by rw [← hpe]
  have htot : 0 < totalOfEntry p.2 := by
    rcases Nat.eq_zero_or_pos (totalOfEntry p.2) with h0 | h0
    · rw [hcp2, h0] at hpos
      norm_num at hpos
    · exact h0
  have hpm : p ∈ m.class_word_counts := by rw [hcwc]; exact hpmem
  have hlook : alookup m.class_word_counts p.1 = some p.2 :=
    alookup_of_mem_nodup hkeys hpm
  have hcp1 : cp.1 = p.1 := by rw [← hpe]
  have htotOf : totalOf m cp.1 = totalOfEntry p.2 := by
    unfold totalOf
    rw [hcp1, hlook]
    rfl
  unfold posteriorSpec
  refine mul_pos hpos (List.prod_pos ?_)
  intro x hx
  obtain ⟨w, hw, rfl⟩ := List.mem_map.mp hx
  refine div_pos ?_ ?_
  · have := Nat.cast_nonneg (α := ℚ) (countOf m cp.1 w)
    linarith
  · have h1 : (1 : ℚ) ≤ (totalOf m cp.1 : ℚ) := by
      rw [htotOf]
      exact_mod_cast htot
    have h2 : (0 : ℚ) ≤ (m.vocab.length : ℚ) := Nat.cast_nonneg _
    linarith

/-- C1 witness: the spec's three-document scenario model, scored on one of
its own training texts. -/
theorem posteriors_match_spec_and_positive_witness :
    (∀ ps, scenarioModel.calculate_posteriors "stocks rally today" = .ok ps →
      ps = scenarioModel.class_priors.map
        (fun cp => (cp.1, posteriorSpec scenarioModel cp.1 cp.2 "stocks rally today"))) ∧
    (scenarioModel.vocab ≠ [] →
      ∃ ps, scenarioModel.calculate_posteriors "stocks rally today" = .ok ps) ∧
    ∀ cp ∈ scenarioModel.class_priors, 0 < cp.2 →
      0 < posteriorSpec scenarioModel cp.1 cp.2 "stocks rally today" :=
  posteriors_match_spec_and_positive tokIdentity scenarioX scenarioY scenarioModel
    (by with_unfolding_all rfl) "stocks rally today"

/-- C2 counterexample: `fit` on zero documents returns normally (with empty
priors); it raises nothing, and no `EmptyTrainingSetError` exists anywhere
in the program. -/
theorem fit_empty_training_set_cex :
    (NaiveBayesClassifier.init tokIdentity).fit [] [] =
      .ok (NaiveBayesClassifier.init tokIdentity) := rfl

/-- C2 amended: for any tokenizer, fitting a fresh classifier on zero
documents returns normally and leaves the model empty — the prior dict
comprehension ranges over the empty `class_word_counts`, so the division by
`total_documents = 0` never executes. -/
theorem fit_empty_training_set_ok (tok : Tokenizer) :
    (NaiveBayesClassifier.init tok).fit [] [] = .ok (NaiveBayesClassifier.init tok) := rfl

/-- C4: whenever `classify` returns its four counts, they are exactly the
declarative confusion counts (a document is positive exactly when its
normalized score strictly exceeds the threshold), and they add up to the
number of evaluated documents. -/
theorem classify_confusion_partition (m : NaiveBayesClassifier) (X y : List String)
    (umbral : ℚ) (category : String) (res : Nat × Nat × Nat × Nat)
    (h : m.classify X y umbral category = .ok res) :
    res = classifySpec m (X.zip y) umbral category ∧
    res.1 + res.2.1 + res.2.2.1 + res.2.2.2 = (X.zip y).length ∧
    (X.length = y.length → res.1 + res.2.1 + res.2.2.1 + res.2.2.2 = X.length) := by
  obtain ⟨i1, i2, i3, i4⟩ := classifyLoop_ok m umbral category (X.zip y) (0, 0, 0, 0) res h
  dsimp only at i1 i2 i3 i4
  have hsum := countP_four_partition (X.zip y)
    (fun r => umbral < scoreOf m category r.1) (fun r => r.2 = category)
  have hcomp : res.1 + res.2.1 + res.2.2.1 + res.2.2.2 = (X.zip y).length := by
    rw [i1, i2, i3, i4]
    simp only [classifySpec, Nat.zero_add]
    exact hsum
  refine ⟨?_, hcomp, ?_⟩
  · have hres : res = (res.1, res.2.1, res.2.2.1, res.2.2.2) := rfl
    rw [hres, i1, i2, i3, i4]
    simp only [Nat.zero_add]
  · intro hxy
    rw [hcomp, List.length_zip, hxy, Nat.min_self]

/-- C4 witness: the scenario model with threshold 2 classifies its single
finance document negative, giving counts (0, 0, 1, 0) that sum to 1. -/
theorem classify_confusion_partition_witness :
    ((0, 0, 1, 0) : Nat × Nat × Nat × Nat) =
      classifySpec scenarioModel (List.zip ["stocks rally today"] ["finance"]) 2 "finance" ∧
    0 + 0 + 1 + 0 = (List.zip ["stocks rally today"] ["finance"]).length ∧
    ((["stocks rally today"] : List String).length = (["finance"] : List String).length →
      0 + 0 + 1 + 0 = (["stocks rally today"] : List String).length) :=
  classify_confusion_partition scenarioModel ["stocks rally today"] ["finance"] 2 "finance"
    (0, 0, 1, 0) (by with_unfolding_all rfl)

/-- C5 amended: every guarded ratio of `compute_metrics` yields 0 on a zero
denominator, but the ROC rate computations are unguarded and raise
`ZeroDivisionError` on a zero denominator. -/
theorem zero_denominator_policy (TP FP TN FN : Nat) :
    (TP + FP + TN + FN = 0 → (computeMetricsOne ⟨TP, FP, TN, FN⟩).accuracy = 0) ∧
    (TP + FP = 0 → (computeMetricsOne ⟨TP, FP, TN, FN⟩).precision = 0) ∧
    (TP + FN = 0 → (computeMetricsOne ⟨TP, FP, TN, FN⟩).recall' = 0) ∧
    ((computeMetricsOne ⟨TP, FP, TN, FN⟩).precision +
        (computeMetricsOne ⟨TP, FP, TN, FN⟩).recall' = 0 →
      (computeMetricsOne ⟨TP, FP, TN, FN⟩).f1_score = 0) ∧
    (TP + FN = 0 → rocRates TP FP FN TN = .error "ZeroDivisionError") := by
  refine ⟨?_, ?_, ?_, ?_, ?_⟩
  · intro h
    obtain ⟨h1, h2, h3, h4⟩ : TP = 0 ∧ FP = 0 ∧ TN = 0 ∧ FN = 0 := by omega
    subst h1; subst h2; subst h3; subst h4
    norm_num [computeMetricsOne]
  · intro h
    obtain ⟨h1, h2⟩ : TP = 0 ∧ FP = 0 := by omega
    subst h1; subst h2
    norm_num [computeMetricsOne]
  · intro h
    obtain ⟨h1, h2⟩ : TP = 0 ∧ FN = 0 := by omega
    subst h1; subst h2
    norm_num [computeMetricsOne]
  · intro h
    simp only [computeMetricsOne] at h ⊢
    rw [h]
    norm_num
  · intro h
    unfold rocRates
    rw [if_pos h]

/-- C5 witness: the all-zero confusion row of a category absent from the
evaluated set gives accuracy, precision, recall and F1 all 0, while the
unguarded ROC rate computation raises. -/
theorem zero_denominator_policy_witness :
    (computeMetricsOne ⟨0, 0, 0, 0⟩).accuracy = 0 ∧
    (computeMetricsOne ⟨0, 0, 0, 0⟩).precision = 0 ∧
    (computeMetricsOne ⟨0, 0, 0, 0⟩).recall' = 0 ∧
    (computeMetricsOne ⟨0, 0, 0, 0⟩).f1_score = 0 ∧
    rocRates 0 0 0 0 = .error "ZeroDivisionError" :=
  ⟨(zero_denominator_policy 0 0 0 0).1 rfl,
   (zero_denominator_policy 0 0 0 0).2.1 rfl,
   (zero_denominator_policy 0 0 0 0).2.2.1 rfl,
   (zero_denominator_policy 0 0 0 0).2.2.2.1 (by with_unfolding_all rfl),
   (zero_denominator_policy 0 0 0 0).2.2.2.2 rfl⟩

/-- C5 counterexample: sweeping the ROC thresholds for a category absent
from the evaluated set (here `"sports"`, with every true label
`"finance"`) raises `ZeroDivisionError` at the first threshold instead of
yielding a 0 rate. -/
theorem roc_zero_denominator_cex :
    rocPoints scenarioModel ["stocks rally today"] ["finance"] "sports" =
      .error "ZeroDivisionError" := by
  with_unfolding_all rfl

/-- C6 counterexample: after fitting the spec's three scenario documents the
vocabulary holds the 9 distinct tokens of the corpus, not 8. -/
theorem scenario_vocab_size_cex : scenarioModel.vocab.length ≠ 8 := by
  have h : scenarioModel.vocab.length = 9 := by with_unfolding_all rfl
  omega

/-- C6 amended: the scenario totals are 6 (finance) and 3 (sports), and the
vocabulary has 9 distinct tokens. -/
theorem scenario_counts :
    totalOf scenarioModel "finance" = 6 ∧ totalOf scenarioModel "sports" = 3 ∧
    scenarioModel.vocab.length = 9 := by
  refine ⟨?_, ?_, ?_⟩ <;> with_unfolding_all rfl

/-- C8 counterexample: a trained model (non-empty priors) on which `predict`
raises `ZeroDivisionError` instead of returning any category: the corner
model's empty vocabulary makes the posterior computation divide by zero on
a tokenizable text. -/
theorem predict_zero_division_cex :
    (NaiveBayesClassifier.init tokIdentity).fit [""] ["c"] = .ok cornerModel ∧
    cornerModel.class_priors ≠ [] ∧
    cornerModel.predict ["hello"] = .error "ZeroDivisionError" := by
  refine ⟨by with_unfolding_all rfl, ?_, by with_unfolding_all rfl⟩
  have hp : cornerModel.class_priors = [("c", 0)] := by with_unfolding_all rfl
  rw [hp]
  simp

/-- C8 amended: on a trained model (non-empty priors), whenever the
posterior computation returns (guaranteed e.g. for a non-empty vocabulary,
see C1), `predict` returns the category whose posterior is maximal, and on
ties the one that comes first in category iteration order: every earlier
entry is strictly smaller, every later entry is at most the returned
value. -/
theorem predict_is_first_argmax (m : NaiveBayesClassifier) (text : String)
    (ps : List (String × ℚ)) (hps : m.calculate_posteriors text = .ok ps)
    (h : m.class_priors ≠ []) :
    ∃ c v l₁ l₂, m.predict [text] = .ok [some c] ∧
      ps = l₁ ++ (c, v) :: l₂ ∧
      (∀ q ∈ l₁, q.2 < v) ∧ (∀ q ∈ l₂, q.2 ≤ v) := by
  have hkeys := calculate_posteriors_ok_keys m text ps hps
  have hne : ps ≠ [] := by
    intro h0
    subst h0
    have hnil : m.class_priors.map (fun p => p.1) = [] := by
      rw [← hkeys]
      rfl
    exact h (List.map_eq_nil_iff.mp hnil)
  obtain ⟨c, v, l₁, l₂, hmax, heq, hlt, hle⟩ := pymax_spec hne
  refine ⟨c, v, l₁, l₂, ?_, heq, hlt, hle⟩
  simp [NaiveBayesClassifier.predict, predictLoop, hps, hmax]

/-- C8 witness: the scenario model predicts a unique top category for one of
its training texts (its posteriors compute to explicit rationals). -/
theorem predict_is_first_argmax_witness :
    ∃ c v l₁ l₂,
      scenarioModel.predict ["team wins championship"] = .ok [some c] ∧
      ([("finance", 2/3375), ("sports", 1/216)] : List (String × ℚ)) =
        l₁ ++ (c, v) :: l₂ ∧
      (∀ q ∈ l₁, q.2 < v) ∧ (∀ q ∈ l₂, q.2 ≤ v) :=
  predict_is_first_argmax scenarioModel "team wins championship"
    [("finance", 2/3375), ("sports", 1/216)] (by with_unfolding_all rfl) (by
    have h : scenarioModel.class_priors = [("finance", 2), ("sports", 1)] := by
      with_unfolding_all rfl
    rw [h]
    simp)

/-- C9: on a text whose tokenization is empty the likelihood product is the
empty product, so every posterior equals the prior, and `predict` returns
the first-seen category attaining the largest prior. -/
theorem empty_tokenization_prior_predict (m : NaiveBayesClassifier) (text : String)
    (h : m.tokenizer.apply text = []) :
    m.calculate_posteriors text = .ok m.class_priors ∧
    (m.class_priors ≠ [] → ∃ c v l₁ l₂, m.predict [text] = .ok [some c] ∧
      m.class_priors = l₁ ++ (c, v) :: l₂ ∧
      (∀ q ∈ l₁, q.2 < v) ∧ (∀ q ∈ l₂, q.2 ≤ v)) := by
  have hpost : m.calculate_posteriors text = .ok m.class_priors := by
    unfold NaiveBayesClassifier.calculate_posteriors
    rw [h]
    exact posteriorsLoop_nil_words m m.class_priors
  refine ⟨hpost, ?_⟩
  intro hne
  obtain ⟨c, v, l₁, l₂, hmax, heq, hlt, hle⟩ := pymax_spec hne
  refine ⟨c, v, l₁, l₂, ?_, heq, hlt, hle⟩
  simp [NaiveBayesClassifier.predict, predictLoop, hpost, hmax]

/-- C9 witness: the empty text tokenizes to nothing, so the scenario model
scores it with the bare priors and predicts the larger-prior category. -/
theorem empty_tokenization_prior_predict_witness :
    scenarioModel.calculate_posteriors "" = .ok scenarioModel.class_priors ∧
    (scenarioModel.class_priors ≠ [] → ∃ c v l₁ l₂,
      scenarioModel.predict [""] = .ok [some c] ∧
      scenarioModel.class_priors = l₁ ++ (c, v) :: l₂ ∧
      (∀ q ∈ l₁, q.2 < v) ∧ (∀ q ∈ l₂, q.2 ≤ v)) :=
  empty_tokenization_prior_predict scenarioModel "" (by with_unfolding_all rfl)

theorem natCast_totalsSum (cwc : List (String × List (String × Nat))) :
    ((totalsSum cwc : Nat) : ℚ) = (cwc.map (fun p => (totalOfEntry p.2 : ℚ))).sum := by
  induction cwc with
  | nil => simp [totalsSum]
  | cons p rest ih =>
    simp only [totalsSum, List.map_cons, List.sum_cons] at ih ⊢
    push_cast
    rw [List.map_map]
    rfl

theorem sum_map_ones {α : Type} (l : List α) : (l.map (fun _ => (1 : Nat))).sum = l.length := by
  induction l with
  | nil => rfl
  | cons a l ih =>
    simp [ih]
    omega

/-- C10 counterexample: for the corner model (trained on labels `["c"]`,
empty vocabulary), classifying the tokenizable text "hello" for the
untrained category "politics" fails with `ZeroDivisionError` raised inside
`_calculate_posteriors` — the `posteriors[category]` lookup, and hence its
`KeyError`, is never reached. -/
theorem classify_zero_division_cex :
    (NaiveBayesClassifier.init tokIdentity).fit [""] ["c"] = .ok cornerModel ∧
    ("politics" ∉ (["c"] : List String)) ∧
    cornerModel.classify ["hello"] ["y"] 0 "politics" = .error "ZeroDivisionError" ∧
    cornerModel.classify ["hello"] ["y"] 0 "politics" ≠ .error "KeyError" := by
  refine ⟨by with_unfolding_all rfl, by decide, ?_, ?_⟩
  · with_unfolding_all rfl
  · have h : cornerModel.classify ["hello"] ["y"] 0 "politics" =
        .error "ZeroDivisionError" := by with_unfolding_all rfl
    rw [h]
    simp

/-- C10 amended: after fitting a fresh model, the posterior keys are exactly
the training labels in first-seen order; for any category that never occurs
in the training labels, `classify` on any non-empty evaluated set fails with
`KeyError` at the `posteriors[category]` lookup, provided the posterior
computation itself returns — guaranteed when the vocabulary is non-empty
(otherwise an earlier `ZeroDivisionError` preempts the lookup). -/
theorem classify_requires_trained_category (tok : Tokenizer) (X y : List String)
    (m : NaiveBayesClassifier) (h : (NaiveBayesClassifier.init tok).fit X y = .ok m)
    (hlen : X.length = y.length) :
    m.class_priors.map (fun p => p.1) = y.foldl setInsert [] ∧
    (m.vocab ≠ [] → ∀ category, category ∉ y →
      ∀ (X2 y2 : List String) (u : ℚ), X2 ≠ [] → y2 ≠ [] →
        m.classify X2 y2 u category = .error "KeyError") := by
  obtain ⟨htok, hvoc, hcwc, hpri, hn⟩ := fit_ok h
  have hkeys : m.class_word_counts.map (fun p => p.1) = y.foldl setInsert [] := by
    rw [hcwc, fitFold_map_fst]
    have hsnd : (X.zip y).map (fun d => d.2) = y := List.map_snd_zip X y (le_of_eq hlen.symm)
    rw [hsnd]
    rfl
  have hprikeys : m.class_priors.map (fun p => p.1) = m.class_word_counts.map (fun p => p.1) := by
    rw [hpri, hcwc, List.map_map]
    rfl
  constructor
  · rw [hprikeys]
    exact hkeys
  · intro hvc category hcat X2 y2 u hX2 hy2
    have hnotin : category ∉ m.class_priors.map (fun p => p.1) := by
      rw [hprikeys, hkeys]
      intro hc
      rcases (mem_foldl_setInsert y [] category).mp hc with h0 | h0
      · cases h0
      · exact hcat h0
    rcases X2 with _ | ⟨x0, X2'⟩
    · exact absurd rfl hX2
    rcases y2 with _ | ⟨y0, y2'⟩
    · exact absurd rfl hy2
    obtain ⟨ps, hps⟩ := calculate_posteriors_ok_of_vocab m x0 hvc
    have hlook : alookup ps category = none := by
      rw [alookup_eq_none_iff, calculate_posteriors_ok_keys m x0 ps hps]
      exact hnotin
    show classifyLoop m u category ((x0 :: X2').zip (y0 :: y2')) (0, 0, 0, 0) =
      .error "KeyError"
    rw [List.zip_cons_cons]
    simp only [classifyLoop, hps, hlook]

/-- C10 witness: the scenario model knows exactly the first-seen training
labels, and classifying for the untrained category "politics" raises
`KeyError`. -/
theorem classify_requires_trained_category_witness :
    scenarioModel.class_priors.map (fun p => p.1) = scenarioY.foldl setInsert [] ∧
    scenarioModel.classify ["x"] ["finance"] 0 "politics" = .error "KeyError" :=
  ⟨(classify_requires_trained_category tokIdentity scenarioX scenarioY scenarioModel
      (by with_unfolding_all rfl) rfl).1,
   (classify_requires_trained_category tokIdentity scenarioX scenarioY scenarioModel
      (by with_unfolding_all rfl) rfl).2
      (by
        intro h0
        have hv : scenarioModel.vocab.length = 9 := by with_unfolding_all rfl
        rw [h0] at hv
        simp at hv)
      "politics" (by decide) ["x"] ["finance"] 0 (by simp) (by simp)⟩

/-- C3 counterexample: one document yielding two tokens (so "every document
yields at least one token" holds), yet the priors sum to 2, not 1. -/
theorem priors_sum_cex :
    (twoTokenModel.class_priors.map (fun p => p.2)).sum = 2 ∧ ((2 : ℚ) ≠ 1) ∧
    (tokIdentity.apply "a b").length = 2 := by
  refine ⟨by with_unfolding_all rfl, by norm_num, by with_unfolding_all rfl⟩

/-- C3 amended: the priors sum to 1 when every training document yields
exactly one token (and no token collides with the reserved `'__total__'`
key); with the token-count prior `total(c)/len(y)`, the sum is in general
`(total token count)/(document count)`, which is 1 only in that case. -/
theorem priors_sum_one (tok : Tokenizer) (X y : List String) (m : NaiveBayesClassifier)
    (h : (NaiveBayesClassifier.init tok).fit X y = .ok m)
    (hlen : X.length = y.length) (hne : y ≠ [])
    (hone : ∀ d ∈ X.zip y, ∃ w, tok.apply d.1 = [w] ∧ w ≠ "__total__") :
    (m.class_priors.map (fun p => p.2)).sum = 1 := by
  obtain ⟨htok, hvoc, hcwc, hpri, hn⟩ := fit_ok h
  have hti : (NaiveBayesClassifier.init tok).tokenizer = tok := rfl
  rw [hti] at hvoc hcwc hpri hn
  rw [hpri, List.map_map]
  have hcomp : ((fun p : String × ℚ => p.2) ∘
      (fun p : String × List (String × Nat) =>
        (p.1, (totalOfEntry p.2 : ℚ) / (y.length : ℚ)))) =
      ((fun x : ℚ => x / (y.length : ℚ)) ∘
        (fun p : String × List (String × Nat) => (totalOfEntry p.2 : ℚ))) := rfl
  rw [hcomp, ← List.map_map, sum_map_div]
  have hw : ∀ d ∈ X.zip y, "__total__" ∉ tok.apply d.1 := by
    intro d hd hmem
    obtain ⟨w, hwd, hwt⟩ := hone d hd
    rw [hwd] at hmem
    rcases List.mem_cons.mp hmem with he | he
    · exact hwt he.symm
    · cases he
  have hsum : ((((X.zip y).foldl (fitDoc tok)
      ((NaiveBayesClassifier.init tok).vocab,
        (NaiveBayesClassifier.init tok).class_word_counts)).2).map
        (fun p => (totalOfEntry p.2 : ℚ))).sum = ((y.length : Nat) : ℚ) := by
    have htot := totalsSum_fitFold tok (X.zip y) hw
      ((NaiveBayesClassifier.init tok).vocab,
        (NaiveBayesClassifier.init tok).class_word_counts)
    have hlens : ((X.zip y).map (fun d => (tok.apply d.1).length)).sum = y.length := by
      have hmap : (X.zip y).map (fun d => (tok.apply d.1).length) =
          (X.zip y).map (fun _ => (1 : Nat)) := by
        refine List.map_congr_left ?_
        intro d hd
        obtain ⟨w, hwd, _⟩ := hone d hd
        rw [hwd]
        rfl
      rw [hmap, sum_map_ones, List.length_zip, hlen, Nat.min_self]
    rw [← natCast_totalsSum, htot, hlens]
    have h0 : totalsSum ((NaiveBayesClassifier.init tok).vocab,
        (NaiveBayesClassifier.init tok).class_word_counts).2 = 0 := rfl
    rw [h0, Nat.zero_add]
  rw [hsum]
  have hy : ((y.length : Nat) : ℚ) ≠ 0 := by
    rw [Nat.cast_ne_zero]
    intro h0
    exact hne (List.length_eq_zero.mp h0)
  exact div_self hy

/-- C3 witness: two one-token documents in two categories; the priors sum
to exactly 1. -/
theorem priors_sum_one_witness :
    (oneTokenModel.class_priors.map (fun p => p.2)).sum = 1 :=
  priors_sum_one tokIdentity ["aa", "bb"] ["x", "y"] oneTokenModel
    (by with_unfolding_all rfl) rfl (by simp) (by
      intro d hd
      have hz : (["aa", "bb"].zip ["x", "y"] : List (String × String)) =
          [("aa", "x"), ("bb", "y")] := rfl
      rw [hz] at hd
      rcases List.mem_cons.mp hd with rfl | hd
      · exact ⟨"aa", rfl, by decide⟩
      rcases List.mem_cons.mp hd with rfl | hd
      · exact ⟨"bb", rfl, by decide⟩
      cases hd)

theorem stratifiedPieces_shape {S : Type} (rm : RandomModel S) (df : List (String × String))
    (ts : ℚ) : ∀ (cats : List String) (st : S)
      (piece : List (String × String) × List (String × String)),
      piece ∈ (stratifiedPieces rm df ts cats st).1 →
      ∃ c st0 sub k, c ∈ cats ∧ sub = (rm.sample st0 (df.filter (fun r => r.2 = c))).1 ∧
        k = (Rat.floor ((sub.length : ℚ) * (1 - ts))).toNat ∧
        piece.1 = sub.take k ∧ piece.2 = sub.drop k ∧ piece.1 ++ piece.2 = sub := by
  intro cats
  induction cats with
  | nil =>
    intro st piece hp
    simp [stratifiedPieces] at hp
  | cons c cats ih =>
    intro st piece hp
    simp only [stratifiedPieces] at hp
    rcases List.mem_cons.mp hp with rfl | hp
    · exact ⟨c, st, _, _, List.mem_cons_self _ _, rfl, rfl, rfl, rfl,
        List.take_append_drop _ _⟩
    · obtain ⟨c', st0, sub, k, hc, hsub, hk, h1, h2, h3⟩ := ih _ _ hp
      exact ⟨c', st0, sub, k, List.mem_cons_of_mem _ hc, hsub, hk, h1, h2, h3⟩

/-- C7 amended: with a truthy (nonzero) seed, `train_test_split` reseeds the
generator, so its result does not depend on the ambient generator state —
two calls with identical arguments agree; and each category contributes the
head of its shuffled subset up to `floor(count * (1 - test_size))` to train
and the tail to test.  (With seed 0 or None the `if random_state:` guard
skips the reseeding; see the counterexample.) -/
theorem train_test_split_seeded {S : Type} (rm : RandomModel S) (st1 st2 : S)
    (df : List (String × String)) (test_size : ℚ) (s : Nat) (hs : s ≠ 0) :
    train_test_split rm st1 df test_size (some s) =
      train_test_split rm st2 df test_size (some s) ∧
    ∀ piece ∈ (stratifiedPieces rm df test_size (uniqueCats df) (rm.seed s)).1,
      ∃ c st0 sub, c ∈ uniqueCats df ∧
        sub = (rm.sample st0 (df.filter (fun r => r.2 = c))).1 ∧
        piece.1 = sub.take ((Rat.floor ((sub.length : ℚ) * (1 - test_size))).toNat) ∧
        piece.2 = sub.drop ((Rat.floor ((sub.length : ℚ) * (1 - test_size))).toNat) ∧
        piece.1 ++ piece.2 = sub := by
  constructor
  · simp only [train_test_split]
    rw [if_neg hs, if_neg hs]
  · intro piece hp
    obtain ⟨c, st0, sub, k, hc, hsub, hk, h1, h2, h3⟩ :=
      stratifiedPieces_shape rm df test_size (uniqueCats df) (rm.seed s) piece hp
    refine ⟨c, st0, sub, hc, hsub, ?_, ?_, h3⟩
    · rw [h1, hk]
    · rw [h2, hk]

/-- C7 witness: a concrete one-bit generator model and a two-row frame;
with seed 1 the two ambient states give identical splits, and the single
category piece is the head/tail cut of its shuffled subset. -/
theorem train_test_split_seeded_witness :
    (train_test_split rmBool false dfPair (3/10) (some 1) =
      train_test_split rmBool true dfPair (3/10) (some 1)) ∧
    ∀ piece ∈ (stratifiedPieces rmBool dfPair (3/10) (uniqueCats dfPair) (rmBool.seed 1)).1,
      ∃ c st0 sub, c ∈ uniqueCats dfPair ∧
        sub = (rmBool.sample st0 (dfPair.filter (fun r => r.2 = c))).1 ∧
        piece.1 = sub.take ((Rat.floor ((sub.length : ℚ) * (1 - 3/10))).toNat) ∧
        piece.2 = sub.drop ((Rat.floor ((sub.length : ℚ) * (1 - 3/10))).toNat) ∧
        piece.1 ++ piece.2 = sub :=
  train_test_split_seeded rmBool false true dfPair (3/10) 1 (by decide)

/-- C7 counterexample: with `random_state = 0` the guard `if random_state:`
is falsy, `np.random.seed` is never called, and the split depends on the
ambient generator state: the same arguments produce different train sets
under two different ambient states. -/
theorem train_test_split_zero_seed_cex :
    (train_test_split rmBool false dfPair (1/2) (some 0)).1 ≠
      (train_test_split rmBool true dfPair (1/2) (some 0)).1 := by
  have h1 : (train_test_split rmBool false dfPair (1/2) (some 0)).1 = [("a", "c")] := by
    with_unfolding_all rfl
  have h2 : (train_test_split rmBool true dfPair (1/2) (some 0)).1 = [("b", "c")] := by
    with_unfolding_all rfl
  rw [h1, h2]
  decide
